import Mathlib

/-!
Shallow embedding of the deepchannel data generators.

Sources embedded here:
  * src/gilbertElliotDataGen.py                 (referred to below as the v1 variant)
  * src/gilbertElliot/gilbertElliotDataGen.py   (referred to below as the v2 variant)
  * src/mismatch_data_gen.py                    (the mismatched-coefficient generator)

Modelling conventions:
  * numpy/torch pseudo-random draws are modelled by an explicit stream of
    rationals together with a cursor (`RNG`); `randn` hands out the next
    stream element, `np.random.choice` on two candidates is modelled by
    inverse-CDF sampling of a uniform draw `u` taken from the same stream
    (`u < p0` selects the first candidate).
  * the irrational scalar constants the source computes with floats
    (`np.sqrt(2)`, `np.sqrt(Q_diag)`, `np.sqrt(R)`) are carried as symbolic
    rational parameters (`NoiseConsts`); no claim below depends on their
    numerical values.
  * complex scalars are re/im pairs of rationals (`QC`), exactly mirroring
    the source, which itself keeps real and imaginary parts in separate
    float arrays.
  * numpy basic slicing `a[lo:hi]` clips to the array bounds; it is
    modelled by `(l.drop lo).take (hi - lo)`, which clips the same way.
    numpy assignment of a length-1 slice into a length-n target
    broadcasts; `npBroadcastTo` models that (and fails like numpy on any
    other length mismatch).
-/

/-- Complex scalar as a (re, im) pair of rationals, mirroring the source's
separate real/imaginary float channels. -/
abbrev QC : Type := ℚ × ℚ

/-- State of the global numpy/torch pseudo-random generator: the stream of
future draws and a cursor.  Stands in for the Mersenne-Twister state; every
claim proved below is independent of the concrete stream contents. -/
structure RNG where
  g : ℕ → ℚ
  k : ℕ

/-- Hand out the next pseudo-random draw and advance the cursor
(models one scalar produced by `np.random.randn` / `torch.randn`). -/
def RNG.next (r : RNG) : ℚ × RNG := (r.g r.k, ⟨r.g, r.k + 1⟩)

/-- Reseeding the global generator: `np.random.seed(seed)` replaces the
generator state by one depending only on `seed`.  The concrete stream below
is a symbolic stand-in for MT19937; the determinism claims only use that
the result depends on nothing but `seed`. -/
def mkRNG (seed : ℤ) : RNG := ⟨fun n => (seed : ℚ) + n, 0⟩

/-- The two Markov regimes of the Gilbert-Elliot channel. -/
inductive MCState where
  | good : MCState
  | bad : MCState
deriving DecidableEq, Repr

/-- Model of `np.random.choice([c0, c1], p=[p0, 1-p0])` by inverse-CDF
sampling: a uniform draw `u` from the stream selects `c0` iff `u < p0`. -/
def npChoice2 (c0 c1 : MCState) (p0 : ℚ) (r : RNG) : MCState × RNG :=
  let (u, r') := r.next
  (if u < p0 then c0 else c1, r')

/-- v1 (src/gilbertElliotDataGen.py line 66):
`transitionProbabiltyArray = ((p, 1-p), (q, 1-q))`. -/
def transitionProbabiltyArray_v1 (p q : ℚ) : (ℚ × ℚ) × (ℚ × ℚ) :=
  ((p, 1 - p), (q, 1 - q))

/-- v2 (src/gilbertElliot/gilbertElliotDataGen.py line 148):
`transitionProbabiltyArray = ((1-p, p), (1-q, q))`. -/
def transitionProbabiltyArray_v2 (p q : ℚ) : (ℚ × ℚ) × (ℚ × ℚ) :=
  ((1 - p, p), (1 - q, q))

/-- Both variants (line 67 / line 149):
`transitionStateArray = [['good', 'bad'], ['bad', 'good']]`. -/
def transitionStateArray : (MCState × MCState) × (MCState × MCState) :=
  ((.good, .bad), (.bad, .good))

/-- One Markov transition of the v1 variant (lines 166-172): from `good`
draw over `transitionStateArray[0]` with `transitionProbabiltyArray[0]`,
from `bad` over `transitionStateArray[1]` with probabilities `[1]`. -/
def markovStep_v1 (p q : ℚ) (s : MCState) (r : RNG) : MCState × RNG :=
  match s with
  | .good => npChoice2 transitionStateArray.1.1 transitionStateArray.1.2
      (transitionProbabiltyArray_v1 p q).1.1 r
  | .bad => npChoice2 transitionStateArray.2.1 transitionStateArray.2.2
      (transitionProbabiltyArray_v1 p q).2.1 r

/-- One Markov transition of the v2 variant (lines 257-263). -/
def markovStep_v2 (p q : ℚ) (s : MCState) (r : RNG) : MCState × RNG :=
  match s with
  | .good => npChoice2 transitionStateArray.1.1 transitionStateArray.1.2
      (transitionProbabiltyArray_v2 p q).1.1 r
  | .bad => npChoice2 transitionStateArray.2.1 transitionStateArray.2.2
      (transitionProbabiltyArray_v2 p q).2.1 r

/-- Symbolic stand-ins for the irrational float constants the source
computes once per run: `np.sqrt(2)`, `np.sqrt(Q_diag)` (the nonzero entry
of `QChol`), and `np.sqrt(R)`. -/
structure NoiseConsts where
  sqrt2 : ℚ
  sqrtQdiag : ℚ
  sqrtR : ℚ

/-- Process-noise draw of one loop iteration (both variants, lines 187-190
/ 280-283): `rSysNoise = (QChol @ randn(2,1))/sqrt(2)` and the matching
imaginary part.  Each `randn(2,1)` consumes two stream draws even though
`QChol`'s second row zeroes the second one; only the first complex
component of `v` is nonzero. -/
def sysNoise (c : NoiseConsts) (r : RNG) : (QC × QC) × RNG :=
  let (n1, r) := r.next
  let (_n2, r) := r.next
  let (n3, r) := r.next
  let (_n4, r) := r.next
  (((c.sqrtQdiag * n1 / c.sqrt2, c.sqrtQdiag * n3 / c.sqrt2),
    ((0 : ℚ), (0 : ℚ))), r)

/-- Observation-noise draw of one loop iteration (lines 192-195 /
285-288): `rObsNoise = (sqrt(R) @ randn(1))/sqrt(2)` plus imaginary part. -/
def obsNoise (c : NoiseConsts) (r : RNG) : QC × RNG :=
  let (m1, r) := r.next
  let (m2, r) := r.next
  ((c.sqrtR * m1 / c.sqrt2, c.sqrtR * m2 / c.sqrt2), r)

/-- v2-only warm start (lines 300-302): at step 0 the 2-component state is
`randn(2,1)/sqrt(2) + 1j*randn(2,1)/sqrt(2)`; four draws consumed. -/
def warmStart (c : NoiseConsts) (r : RNG) : (QC × QC) × RNG :=
  let (d1, r) := r.next
  let (d2, r) := r.next
  let (d3, r) := r.next
  let (d4, r) := r.next
  (((d1 / c.sqrt2, d3 / c.sqrt2), (d2 / c.sqrt2, d4 / c.sqrt2)), r)

/-- Complex companion-matrix product `F @ x_current` for
`F = [[a1, a2], [1, 0]]` with real entries, acting componentwise on the
re/im channels. -/
def Fapp (a1 a2 : ℚ) (x : QC × QC) : QC × QC :=
  ((a1 * x.1.1 + a2 * x.2.1, a1 * x.1.2 + a2 * x.2.2), x.1)

/-- Sum of two 2-component complex vectors (`F @ x_current + v`). -/
def addV (x v : QC × QC) : QC × QC :=
  ((x.1.1 + v.1.1, x.1.2 + v.1.2), (x.2.1 + v.2.1, x.2.2 + v.2.2))

/-- Sum of two complex scalars (`H @ x_current + w`, with `H = [1, 0]`). -/
def addC (a b : QC) : QC := (a.1 + b.1, a.2 + b.2)

/-- The `params` tuple of `GilEllDataGen` that the claims depend on:
transition parameters `(p, q)`, the good/bad AR coefficient pairs, and
`sequenceLength`.  (`Q_diag`/`R` enter through `NoiseConsts`; the
`params[3]` dynamic dispatch is embedded separately as `setupQR`.) -/
structure GilParams where
  p : ℚ
  q : ℚ
  goodCoeffs : ℚ × ℚ
  badCoeffs : ℚ × ℚ
  seqLen : ℕ

/-- The `params[4]` start-state policy. -/
inductive StartPolicy where
  | good : StartPolicy
  | bad : StartPolicy
  | random : StartPolicy

/-- Regime coefficient selection (`F = goodF` / `F = badF`). -/
def coeffsOf (cfg : GilParams) (s : MCState) : ℚ × ℚ :=
  match s with
  | .good => cfg.goodCoeffs
  | .bad => cfg.badCoeffs

/-- Markov-chain start state (lines 93-102 / 175-184): `'random'` draws
uniformly between the two states (one `np.random.choice` draw). -/
def startStateOf (pol : StartPolicy) (r : RNG) : MCState × RNG :=
  match pol with
  | .good => (.good, r)
  | .bad => (.bad, r)
  | .random => npChoice2 .good .bad (1 / 2) r

/-- One iteration `i` of the v1 main loop (lines 162-205): Markov
transition (skipped at `i = 0`), regime selection, noise draws, then for
`i > 0` the AR update `x = F x + v`, `z = H x + w`; at `i = 0` the
pre-loop zero `x_current`/`z_current` are left untouched (v1 has no warm
start).  Returns the new Markov state, state vector, recorded observation
and advanced RNG. -/
def gilStep_v1 (c : NoiseConsts) (cfg : GilParams) (i : ℕ) (st : MCState)
    (xc : QC × QC) (r : RNG) : MCState × (QC × QC) × QC × RNG :=
  let (st, r) := if i = 0 then (st, r) else markovStep_v1 cfg.p cfg.q st r
  let F := coeffsOf cfg st
  let (v, r) := sysNoise c r
  let (w, r) := obsNoise c r
  if i = 0 then
    (st, xc, ((0 : ℚ), (0 : ℚ)), r)
  else
    let x := addV (Fapp F.1 F.2 xc) v
    (st, x, addC x.1 w, r)

/-- One iteration `i` of the v2 main loop (lines 253-308): as v1, except
that at `i = 0` the state vector is replaced by the Gaussian warm start
(four extra draws) and the observation `z = H x + w` is recorded at every
step including step 0 (line 305 sits outside the `if`). -/
def gilStep_v2 (c : NoiseConsts) (cfg : GilParams) (i : ℕ) (st : MCState)
    (xc : QC × QC) (r : RNG) : MCState × (QC × QC) × QC × RNG :=
  let (st, r) := if i = 0 then (st, r) else markovStep_v2 cfg.p cfg.q st r
  let F := coeffsOf cfg st
  let (v, r) := sysNoise c r
  let (w, r) := obsNoise c r
  if i = 0 then
    let (x0, r) := warmStart c r
    (st, x0, addC x0.1 w, r)
  else
    let x := addV (Fapp F.1 F.2 xc) v
    (st, x, addC x.1 w, r)

/-- The v1 main loop from iteration `i`, for `cnt` more iterations,
recording `x[:, i] = x_current[0]` and `z[:, i] = z_current`. -/
def gilRun_v1 (c : NoiseConsts) (cfg : GilParams) :
    ℕ → ℕ → MCState → (QC × QC) → RNG → List QC × List QC × RNG
  | _, 0, _, _, r => ([], [], r)
  | i, cnt + 1, st, xc, r =>
    let (st', x, z, r') := gilStep_v1 c cfg i st xc r
    let (xs, zs, r'') := gilRun_v1 c cfg (i + 1) cnt st' x r'
    (x.1 :: xs, z :: zs, r'')

/-- The v2 main loop, same recording discipline as v1. -/
def gilRun_v2 (c : NoiseConsts) (cfg : GilParams) :
    ℕ → ℕ → MCState → (QC × QC) → RNG → List QC × List QC × RNG
  | _, 0, _, _, r => ([], [], r)
  | i, cnt + 1, st, xc, r =>
    let (st', x, z, r') := gilStep_v2 c cfg i st xc r
    let (xs, zs, r'') := gilRun_v2 c cfg (i + 1) cnt st' x r'
    (x.1 :: xs, z :: zs, r'')

/-- Function `GilEllDataGen` of src/gilbertElliotDataGen.py: reseed the global RNG
only when `seed > 0` (lines 61-62), pick the start state, run the main
loop for `sequenceLength + 1` iterations from zeroed `x_current` and
`z_current`.  Returns the `(x, z)` trajectories and the advanced global
RNG (the Riccati-convergence output is float linear algebra outside every
claim's conclusion and is not embedded). -/
def GilEllDataGen_v1 (c : NoiseConsts) (cfg : GilParams) (pol : StartPolicy)
    (seed : ℤ) (amb : RNG) : (List QC × List QC) × RNG :=
  let r := if seed > 0 then mkRNG seed else amb
  let (st, r) := startStateOf pol r
  let (xs, zs, r) :=
    gilRun_v1 c cfg 0 (cfg.seqLen + 1) st (((0 : ℚ), (0 : ℚ)), ((0 : ℚ), (0 : ℚ))) r
  ((xs, zs), r)

/-- Function `GilEllDataGen` of src/gilbertElliot/gilbertElliotDataGen.py
(lines 141-316); identical seed handling (lines 143-144). -/
def GilEllDataGen_v2 (c : NoiseConsts) (cfg : GilParams) (pol : StartPolicy)
    (seed : ℤ) (amb : RNG) : (List QC × List QC) × RNG :=
  let r := if seed > 0 then mkRNG seed else amb
  let (st, r) := startStateOf pol r
  let (xs, zs, r) :=
    gilRun_v2 c cfg 0 (cfg.seqLen + 1) st (((0 : ℚ), (0 : ℚ)), ((0 : ℚ), (0 : ℚ))) r
  ((xs, zs), r)

/-! ### src/mismatch_data_gen.py -/

/-- The condition the source's acceptance test actually decides
(src/mismatch_data_gen.py line 41): `torch.eig(F, eigenvectors=False)`
on the old torch API returns an (n, 2) real tensor whose rows are the
(real part, imaginary part) of each eigenvalue, so
`torch.abs(...) > 1` followed by `.any()` is an elementwise box test —
the pair is accepted iff every eigenvalue `z` of `F = [[a1, a2], [1, 0]]`
(every complex root of `t^2 - a1*t - a2`) has both `|Re z| <= 1` and
`|Im z| <= 1`.  This is strictly weaker than the magnitude test
`|z| <= 1` that the loop's own comment (lines 31-34) and the claims
describe; see claim C5. -/
def eigBox (a1 a2 : ℚ) : Prop :=
  ∀ z : ℂ, z ^ 2 = (a1 : ℂ) * z + (a2 : ℂ) → |z.re| ≤ 1 ∧ |z.im| ≤ 1

/-- Exact rational form of the acceptance test of
`ARCoeffecientGeneration` (src/mismatch_data_gen.py lines 41-44), i.e.
of `eigBox`; `stableCheck_iff_eigBox` below proves the equivalence.
Case split on the discriminant `d = a1^2 + 4*a2` of `t^2 - a1*t - a2`:
for `d >= 0` the eigenvalues are the real numbers `(a1 ± sqrt d)/2`,
which lie in `[-1, 1]` iff `|a1| <= 2`, `a2 <= 1 - a1` and
`a2 <= 1 + a1`; for `d < 0` they are `a1/2 ± i*sqrt(-d)/2`, which
satisfy the box iff `|a1| <= 2` and `-d <= 4`. -/
def stableCheck (a1 a2 : ℚ) : Bool :=
  if 0 ≤ a1 ^ 2 + 4 * a2 then
    decide (|a1| ≤ 2 ∧ a2 ≤ 1 - a1 ∧ a2 ≤ 1 + a1)
  else
    decide (|a1| ≤ 2 ∧ -1 - a1 ^ 2 / 4 ≤ a2)

/-- The property claim C5 asserts, which is also what the loop's own
comment (lines 31-34: reject "until you get a pair who's eigenvalues are
less than 1" because otherwise "the system would explode to infinity")
intends: both eigenvalues of the companion matrix `[[a1, a2], [1, 0]]` —
the complex roots of its characteristic polynomial `t^2 - a1*t - a2` —
have magnitude at most 1.  The source's actual test is `eigBox`, which
is strictly weaker. -/
def eigStable (a1 a2 : ℚ) : Prop :=
  ∀ z : ℂ, z ^ 2 = (a1 : ℂ) * z + (a2 : ℂ) → Complex.abs z ≤ 1

/-- Rational characterization of the magnitude condition `eigStable`
(proved below as `magCheck_iff_eigStable`); used to exhibit coefficient
pairs the source accepts although their eigenvalue magnitudes exceed 1. -/
def magCheck (a1 a2 : ℚ) : Bool :=
  decide (|a2| ≤ 1 ∧ |a1| ≤ 1 - a2)

/-- The rejection-sampling loop of `ARCoeffecientGeneration`
(src/mismatch_data_gen.py lines 30-45).  Iteration `k` draws two fresh
`torch.randn` values, scales them by `noiseVar` (the source multiplies by
the variance itself, line 35-36), adds the means, and accepts iff the
elementwise eigenvalue box test `stableCheck` passes.  The source's
`while` loop has no iteration bound;
`fuel` indexes loop unrollings: `none` means the loop has not exited
within `fuel` iterations (the source would still be running — it has no
error path at all). -/
def ARCoeffecientGeneration (means : ℚ × ℚ) (noiseVar : ℚ) (g : ℕ → ℚ) :
    ℕ → ℕ → Option (ℚ × ℚ)
  | _, 0 => none
  | k, fuel + 1 =>
    let a1 := means.1 + g (2 * k) * noiseVar
    let a2 := means.2 + g (2 * k + 1) * noiseVar
    if stableCheck a1 a2 then some (a1, a2)
    else ARCoeffecientGeneration means noiseVar g (k + 1) fuel

/-- Claim C4's property: some fixed ceiling `N` bounds the number of
redraw iterations of `ARCoeffecientGeneration` for every input (the
source would have to exit — normally or with an error — within `N`
iterations of the `while` loop). -/
def hasRetryCeiling : Prop :=
  ∃ N : ℕ, ∀ (means : ℚ × ℚ) (noiseVar : ℚ) (g : ℕ → ℚ),
    (ARCoeffecientGeneration means noiseVar g 0 N).isSome

/-- One iteration `m` of the per-batch-element sequence loop of
`ARDatagenMismatch` (src/mismatch_data_gen.py lines 174-229): noise draws
exactly as in the Gilbert-Elliot loop, then at `m = 0` the state and
observation are zeroed (lines 193-195, "the initial state starts at 0"),
and for `m > 0` the single-regime AR update. -/
def mismatchStep (c : NoiseConsts) (F : ℚ × ℚ) (m : ℕ) (xc : QC × QC)
    (r : RNG) : (QC × QC) × QC × RNG :=
  let (v, r) := sysNoise c r
  let (w, r) := obsNoise c r
  if m = 0 then
    ((((0 : ℚ), (0 : ℚ)), ((0 : ℚ), (0 : ℚ))), ((0 : ℚ), (0 : ℚ)), r)
  else
    let x := addV (Fapp F.1 F.2 xc) v
    (x, addC x.1 w, r)

/-- The per-batch-element sequence loop of `ARDatagenMismatch` from
iteration `m`, for `cnt` more iterations, recording the full state vector
(`all_xs[j, :, :, m, i] = x_complex`) and the observation `z_complex`
of every iteration (the source stores the first `sequenceLength` of the
latter). -/
def mismatchSeqRun (c : NoiseConsts) (F : ℚ × ℚ) :
    ℕ → ℕ → (QC × QC) → RNG → List (QC × QC) × List QC × RNG
  | _, 0, _, r => ([], [], r)
  | m, cnt + 1, xc, r =>
    let (x, z, r') := mismatchStep c F m xc r
    let (xs, zs, r'') := mismatchSeqRun c F (m + 1) cnt x r'
    (x :: xs, z :: zs, r'')

/-! ### toeplitzData (the WindowTransform) -/

/-- Kinds of Python exception relevant to the embedded functions. -/
inductive PyErr where
  | domainError : PyErr
  | valueError : PyErr
  | typeError : PyErr
  | indexError : PyErr
deriving DecidableEq, Repr

/-- numpy assignment `target[0:n] = src` for a 1-D `src`: succeeds when
the lengths agree, broadcasts a single element across the target, and
raises (`ValueError`) otherwise. -/
def npBroadcastTo (n : ℕ) (src : List ℚ) : Option (List ℚ) :=
  if src.length = n then some src
  else match src with
    | [a] => some (List.replicate n a)
    | _ => none

/-- numpy basic slice `row[lo:hi]` of a 1-D array (clips at the ends). -/
def npSlice (row : List QC) (lo hi : ℕ) : List QC :=
  (row.drop lo).take (hi - lo)

/-- Column `i` of `toeplitzObservationStates` (both variants, lines
254-256 / 363-365): real and imaginary parts of `z[0, i : i+numColumns]`
assigned into two rows of `numColumns` slots. -/
def obsCol (z : List QC) (numColumns i : ℕ) : Option (List ℚ × List ℚ) :=
  let s := npSlice z i (i + numColumns)
  match npBroadcastTo numColumns (s.map Prod.fst),
        npBroadcastTo numColumns (s.map Prod.snd) with
  | some re, some im => some (re, im)
  | _, _ => none

/-- The trajectory slice v1's `toeplitzFinalTrueStates` column reads
(src/gilbertElliotDataGen.py lines 258, 260): `x[0, i+numColumns :
i+numColumns+2]`. -/
def finalSlice_v1 (x : List QC) (numColumns i : ℕ) : List QC :=
  npSlice x (i + numColumns) (i + numColumns + 2)

/-- The trajectory slice v2's `toeplitzFinalTrueStates` column reads
(src/gilbertElliot/gilbertElliotDataGen.py lines 367, 369):
`x[0, i+numColumns-1 : i+numColumns+1]`. -/
def finalSlice_v2 (x : List QC) (numColumns i : ℕ) : List QC :=
  npSlice x (i + numColumns - 1) (i + numColumns + 1)

/-- Column `i` of v1's `toeplitzFinalTrueStates`: rows 0-1 get the real
parts of the slice, rows 2-3 the imaginary parts, each through the
two-slot numpy assignment. -/
def finalCol_v1 (x : List QC) (numColumns i : ℕ) : Option (List ℚ × List ℚ) :=
  let s := finalSlice_v1 x numColumns i
  match npBroadcastTo 2 (s.map Prod.fst), npBroadcastTo 2 (s.map Prod.snd) with
  | some re, some im => some (re, im)
  | _, _ => none

/-- Column `i` of v2's `toeplitzFinalTrueStates`. -/
def finalCol_v2 (x : List QC) (numColumns i : ℕ) : Option (List ℚ × List ℚ) :=
  let s := finalSlice_v2 x numColumns i
  match npBroadcastTo 2 (s.map Prod.fst), npBroadcastTo 2 (s.map Prod.snd) with
  | some re, some im => some (re, im)
  | _, _ => none

/-- Column `i` of `toeplitzAllTrueStates` (lines 262-263 / 371-372):
real/imag parts of `x[0, i : i+numColumns+1]`. -/
def allCol (x : List QC) (numColumns i : ℕ) : Option (List ℚ × List ℚ) :=
  let s := npSlice x i (i + numColumns + 1)
  match npBroadcastTo (numColumns + 1) (s.map Prod.fst),
        npBroadcastTo (numColumns + 1) (s.map Prod.snd) with
  | some re, some im => some (re, im)
  | _, _ => none

/-- Build the list of columns `0, 1, ..., n-1`, failing as soon as one
column assignment fails (the loop `for i in range(0, numRows)`). -/
def colsUpTo (f : ℕ → Option (List ℚ × List ℚ)) : ℕ → Option (List (List ℚ × List ℚ))
  | 0 => some []
  | n + 1 =>
    match colsUpTo f n, f n with
    | some cols, some c => some (cols ++ [c])
    | _, _ => none

/-- Function `toeplitzData` of src/gilbertElliotDataGen.py (lines 236-264):
`sequenceLength = x.shape[1] - 1`, `numRows = sequenceLength - numColumns
+ 1`, raise when `numRows < 1` (line 245-247), otherwise fill the three
window matrices column by column.  Output order follows the source's
return: (allTrueStates, observationStates, finalTrueStates), each as its
list of per-window columns. -/
def toeplitzData_v1 (x z : List QC) (numColumns : ℕ) :
    Except PyErr (List (List ℚ × List ℚ) × List (List ℚ × List ℚ) × List (List ℚ × List ℚ)) :=
  let sequenceLength : ℤ := (x.length : ℤ) - 1
  let numRows : ℤ := sequenceLength - numColumns + 1
  if numRows < 1 then .error .domainError
  else
    match colsUpTo (allCol x numColumns) numRows.toNat,
          colsUpTo (obsCol z numColumns) numRows.toNat,
          colsUpTo (finalCol_v1 x numColumns) numRows.toNat with
    | some a, some o, some f => .ok (a, o, f)
    | _, _, _ => .error .valueError

/-- Function `toeplitzData` of src/gilbertElliot/gilbertElliotDataGen.py (lines
345-373); identical except for the final-states slice. -/
def toeplitzData_v2 (x z : List QC) (numColumns : ℕ) :
    Except PyErr (List (List ℚ × List ℚ) × List (List ℚ × List ℚ) × List (List ℚ × List ℚ)) :=
  let sequenceLength : ℤ := (x.length : ℤ) - 1
  let numRows : ℤ := sequenceLength - numColumns + 1
  if numRows < 1 then .error .domainError
  else
    match colsUpTo (allCol x numColumns) numRows.toNat,
          colsUpTo (obsCol z numColumns) numRows.toNat,
          colsUpTo (finalCol_v2 x numColumns) numRows.toNat with
    | some a, some o, some f => .ok (a, o, f)
    | _, _, _ => .error .valueError

/-! ### convertToBatched (the BatchReshaper) -/

/-- A 2-axis numpy array as an index function (`systemData[ch, n]`). -/
abbrev Arr2 : Type := ℕ → ℕ → ℚ

/-- A 3-axis numpy array (`observedData[ch, t, n]`). -/
abbrev Arr3 : Type := ℕ → ℕ → ℕ → ℚ

/-- A 4-axis numpy array (`measuredState[b, ch, t, i]`). -/
abbrev Arr4 : Type := ℕ → ℕ → ℕ → ℕ → ℚ

/-- Model of `np.transpose` of a 2-axis array. -/
def npTranspose2 (a : Arr2) : Arr2 := fun i j => a j i

/-- Model of `np.transpose` of a 3-axis array (reverses the axis order). -/
def npTranspose3 (a : Arr3) : Arr3 := fun i j k => a k j i

/-- Model of `np.swapaxes(a, 1, 2)` of a 3-axis array. -/
def npSwapaxes12 (a : Arr3) : Arr3 := fun i j k => a i k j

/-- Slice `a[:, lo:lo+len]` along the last axis of a 2-axis array. -/
def npSliceLast2 (a : Arr2) (lo : ℕ) : Arr2 := fun i j => a i (lo + j)

/-- Slice `a[:, :, lo:lo+len]` along the last axis of a 3-axis array. -/
def npSliceLast3 (a : Arr3) (lo : ℕ) : Arr3 := fun i j k => a i j (lo + k)

/-- Function `convertToBatched` (src/gilbertElliot/gilbertElliotDataGen.py lines
33-45): `seriesLength = int(numSequences/batchSize)`; for each batch
index `i < seriesLength`,
`trueState[:, :, i] = transpose(systemData[:, i*batchSize:(i+1)*batchSize])`
and `measuredState[:, :, :, i] =
swapaxes(transpose(observedData[:, :, i*batchSize:(1+i)*batchSize]), 1, 2)`.
Entries outside the assigned range model `np.empty` junk as 0.  `numSeq`
is `observedData.shape[2]`. -/
def convertToBatched (systemData : Arr2) (observedData : Arr3)
    (numSeq batchSize : ℕ) : Arr3 × Arr4 :=
  let seriesLength := numSeq / batchSize
  (fun b ch i =>
    if i < seriesLength ∧ b < batchSize then
      npTranspose2 (npSliceLast2 systemData (i * batchSize)) b ch
    else 0,
   fun b ch t i =>
    if i < seriesLength ∧ b < batchSize then
      npSwapaxes12 (npTranspose3 (npSliceLast3 observedData (i * batchSize))) b ch t
    else 0)

/-! ### The params[3] noise-parameter dispatch of GilEllDataGen -/

/-- The dynamic value passed as `params[3]`: either a list/tuple of floats
or a bare float (both documented input forms). -/
inductive PyNoiseParam where
  | list : List ℚ → PyNoiseParam
  | pyfloat : ℚ → PyNoiseParam
deriving DecidableEq, Repr

/-- Python `len(params[3])`: lists have a length, `len()` of a float
raises `TypeError`. -/
def pyLen : PyNoiseParam → Except PyErr ℕ
  | .list l => .ok l.length
  | .pyfloat _ => .error .typeError

/-- Python `params[3][i]`: indexing a float raises `TypeError`, an
out-of-range index raises `IndexError`. -/
def pyGet (p : PyNoiseParam) (i : ℕ) : Except PyErr ℚ :=
  match p with
  | .list l =>
    match l[i]? with
    | some v => .ok v
    | none => .error .indexError
  | .pyfloat _ => .error .typeError

/-- The `Q_diag`/`R` setup of `GilEllDataGen` (src/gilbertElliotDataGen.py
lines 76-90, identically src/gilbertElliot/gilbertElliotDataGen.py lines
158-172), with Python's evaluation order: when at least 4 params are
present, `len(params[3]) == 1` is evaluated first, so a bare float raises
`TypeError` before the `type(params[3]) is float` branch can run; that
float branch is kept below exactly as written even though it is dead
code. -/
def setupQR (numParams : ℕ) (p3 : PyNoiseParam) : Except PyErr (ℚ × ℚ) :=
  if numParams < 4 then .ok (1 / 10, 1 / 10)
  else do
    let n ← pyLen p3
    if n = 1 then do
      let qd ← pyGet p3 0
      .ok (qd, 1 / 10)
    else
      match p3 with
      | .pyfloat v => .ok (v, 1 / 10)
      | .list _ => do
        let qd ← pyGet p3 0
        let rv ← pyGet p3 1
        .ok (qd, rv)

/-- Wrapper for `GilEllDataGen` including the `params[3]` dispatch, which the source
runs before any of the Riccati computation or the data-generation loop:
a `TypeError` from `setupQR` aborts the call before any data is
generated.  (`NoiseConsts` then carries the square roots of the parsed
`Q_diag` and `R`.) -/
def GilEllDataGenChecked_v1 (c : NoiseConsts) (numParams : ℕ)
    (p3 : PyNoiseParam) (cfg : GilParams) (pol : StartPolicy) (seed : ℤ)
    (amb : RNG) : Except PyErr ((List QC × List QC) × RNG) := do
  let _qr ← setupQR numParams p3
  .ok (GilEllDataGen_v1 c cfg pol seed amb)

/-- The same wrapper for the v2 variant (its lines 158-172 are identical). -/
def GilEllDataGenChecked_v2 (c : NoiseConsts) (numParams : ℕ)
    (p3 : PyNoiseParam) (cfg : GilParams) (pol : StartPolicy) (seed : ℤ)
    (amb : RNG) : Except PyErr ((List QC × List QC) × RNG) := do
  let _qr ← setupQR numParams p3
  .ok (GilEllDataGen_v2 c cfg pol seed amb)

/-! ### Supporting lemmas -/

theorem colsUpTo_eq_some (f : ℕ → Option (List ℚ × List ℚ)) (n : ℕ)
    (h : ∀ j, j < n → (f j).isSome) :
    ∃ cols, colsUpTo f n = some cols ∧ cols.length = n ∧
      ∀ j, j < n → cols[j]? = f j := by
  induction n with
  | zero => exact ⟨[], rfl, rfl, fun j hj => absurd hj (Nat.not_lt_zero j)⟩
  | succ n ih =>
    obtain ⟨cols, hc, hl, hg⟩ := ih (fun j hj => h j (Nat.lt_succ_of_lt hj))
    obtain ⟨c, hcn⟩ := Option.isSome_iff_exists.mp (h n (Nat.lt_succ_self n))
    refine ⟨cols ++ [c], ?_, ?_, ?_⟩
    · simp [colsUpTo, hc, hcn]
    · simp [hl]
    · intro j hj
      rcases Nat.lt_succ_iff_lt_or_eq.mp hj with hj' | hj'
      · rw [List.getElem?_append_left (by rw [hl]; exact hj')]
        exact hg j hj'
      · subst hj'
        rw [← hl, List.getElem?_concat_length, hl]
        exact hcn.symm

theorem npSlice_length (l : List QC) (lo hi : ℕ) :
    (npSlice l lo hi).length = min (hi - lo) (l.length - lo) := by
  simp [npSlice]

theorem npSlice_two (l : List QC) (lo : ℕ) (h : lo + 1 < l.length) :
    npSlice l lo (lo + 2) = [l[lo], l[lo + 1]] := by
  have h0 : lo < l.length := Nat.lt_of_succ_lt h
  have h2 : lo + 2 - lo = 2 := by omega
  rw [npSlice, h2, List.drop_eq_getElem_cons h0, List.drop_eq_getElem_cons h]
  rfl

theorem npSlice_one (l : List QC) (lo : ℕ) (h0 : lo < l.length)
    (h1 : lo + 1 = l.length) :
    npSlice l lo (lo + 2) = [l[lo]] := by
  have h2 : lo + 2 - lo = 2 := by omega
  have hnil : l.drop (lo + 1) = [] := by
    rw [List.drop_eq_nil_iff]
    omega
  rw [npSlice, h2, List.drop_eq_getElem_cons h0, hnil]
  rfl

theorem npBroadcastTo_of_length (n : ℕ) (src : List ℚ) (h : src.length = n) :
    npBroadcastTo n src = some src := by
  simp [npBroadcastTo, h]

theorem npBroadcastTo_single (n : ℕ) (a : ℚ) :
    npBroadcastTo n [a] = some (List.replicate n a) := by
  unfold npBroadcastTo
  by_cases h : ([a] : List ℚ).length = n
  · simp only [List.length_singleton] at h
    subst h
    simp
  · rw [if_neg h]

theorem obsCol_eq (z : List QC) (nc j : ℕ) (h : j + nc ≤ z.length) :
    obsCol z nc j = some ((npSlice z j (j + nc)).map Prod.fst,
                          (npSlice z j (j + nc)).map Prod.snd) := by
  have hs : (npSlice z j (j + nc)).length = nc := by
    rw [npSlice_length]
    omega
  rw [obsCol, npBroadcastTo_of_length _ _ (by rw [List.length_map]; exact hs),
      npBroadcastTo_of_length _ _ (by rw [List.length_map]; exact hs)]

theorem allCol_eq (x : List QC) (nc j : ℕ) (h : j + nc + 1 ≤ x.length) :
    allCol x nc j = some ((npSlice x j (j + nc + 1)).map Prod.fst,
                          (npSlice x j (j + nc + 1)).map Prod.snd) := by
  have hs : (npSlice x j (j + nc + 1)).length = nc + 1 := by
    rw [npSlice_length]
    omega
  rw [allCol, npBroadcastTo_of_length _ _ (by rw [List.length_map]; exact hs),
      npBroadcastTo_of_length _ _ (by rw [List.length_map]; exact hs)]

theorem npSlice_two? (l : List QC) (lo : ℕ) (h : lo + 1 < l.length) :
    ∃ a b : QC, l[lo]? = some a ∧ l[lo + 1]? = some b ∧
      npSlice l lo (lo + 2) = [a, b] :=
  ⟨l[lo], l[lo + 1], List.getElem?_eq_getElem (Nat.lt_of_succ_lt h),
    List.getElem?_eq_getElem h, npSlice_two l lo h⟩

theorem finalCol_v2_eq (x : List QC) (nc j : ℕ) (h1 : 1 ≤ nc)
    (h : j + nc < x.length) :
    ∃ cur next : QC, x[j + nc - 1]? = some cur ∧ x[j + nc]? = some next ∧
      finalCol_v2 x nc j = some ([cur.1, next.1], [cur.2, next.2]) := by
  have hlt : (j + nc - 1) + 1 < x.length := by omega
  have e2 : j + nc + 1 = (j + nc - 1) + 2 := by omega
  have e1 : (j + nc - 1) + 1 = j + nc := by omega
  obtain ⟨a, b, ha, hb, hs⟩ := npSlice_two? x (j + nc - 1) hlt
  rw [e1] at hb
  refine ⟨a, b, ha, hb, ?_⟩
  rw [finalCol_v2, show finalSlice_v2 x nc j = [a, b] from by rw [finalSlice_v2, e2]; exact hs]
  rw [npBroadcastTo_of_length 2 _ (by simp), npBroadcastTo_of_length 2 _ (by simp)]
  rfl

theorem finalCol_v1_full (x : List QC) (nc j : ℕ) (h : j + nc + 1 < x.length) :
    ∃ a b : QC, x[j + nc]? = some a ∧ x[j + nc + 1]? = some b ∧
      finalCol_v1 x nc j = some ([a.1, b.1], [a.2, b.2]) := by
  have hlt : (j + nc) + 1 < x.length := h
  have hs : finalSlice_v1 x nc j = [x[j + nc], x[(j + nc) + 1]] :=
    npSlice_two x _ hlt
  refine ⟨x[j + nc], x[(j + nc) + 1], ?_, ?_, ?_⟩
  · exact List.getElem?_eq_getElem (by omega)
  · exact List.getElem?_eq_getElem hlt
  · rw [finalCol_v1, hs]
    rw [npBroadcastTo_of_length 2 _ (by simp), npBroadcastTo_of_length 2 _ (by simp)]
    rfl

theorem finalCol_v1_last (x : List QC) (nc j : ℕ) (h0 : j + nc < x.length)
    (h1 : j + nc + 1 = x.length) :
    ∃ a : QC, x[j + nc]? = some a ∧
      finalCol_v1 x nc j = some ([a.1, a.1], [a.2, a.2]) := by
  have hs : finalSlice_v1 x nc j = [x[j + nc]] := npSlice_one x _ h0 h1
  refine ⟨x[j + nc], List.getElem?_eq_getElem h0, ?_⟩
  rw [finalCol_v1, hs]
  rw [show ([x[j + nc]].map Prod.fst) = [x[j + nc].1] from rfl,
      show ([x[j + nc]].map Prod.snd) = [x[j + nc].2] from rfl,
      npBroadcastTo_single, npBroadcastTo_single]
  rfl

theorem toeplitzData_v1_ok (x z : List QC) (nc : ℕ) (_h1 : 1 ≤ nc)
    (hz : z.length = x.length) (hrows : 1 ≤ (x.length : ℤ) - 1 - nc + 1) :
    ∃ a o f, toeplitzData_v1 x z nc = .ok (a, o, f)
      ∧ a.length = ((x.length : ℤ) - 1 - (nc : ℤ) + 1).toNat
      ∧ o.length = ((x.length : ℤ) - 1 - (nc : ℤ) + 1).toNat
      ∧ f.length = ((x.length : ℤ) - 1 - (nc : ℤ) + 1).toNat
      ∧ (∀ j, j < ((x.length : ℤ) - 1 - (nc : ℤ) + 1).toNat → a[j]? = allCol x nc j)
      ∧ (∀ j, j < ((x.length : ℤ) - 1 - (nc : ℤ) + 1).toNat → o[j]? = obsCol z nc j)
      ∧ (∀ j, j < ((x.length : ℤ) - 1 - (nc : ℤ) + 1).toNat → f[j]? = finalCol_v1 x nc j) := by
  have hbound : ∀ j, j < ((x.length : ℤ) - 1 - (nc : ℤ) + 1).toNat → j + nc < x.length := by
    intro j hj
    omega
  have hAll : ∀ j, j < ((x.length : ℤ) - 1 - (nc : ℤ) + 1).toNat → (allCol x nc j).isSome := by
    intro j hj
    rw [allCol_eq x nc j (by have := hbound j hj; omega)]
    rfl
  have hObs : ∀ j, j < ((x.length : ℤ) - 1 - (nc : ℤ) + 1).toNat → (obsCol z nc j).isSome := by
    intro j hj
    rw [obsCol_eq z nc j (by have := hbound j hj; omega)]
    rfl
  have hFin : ∀ j, j < ((x.length : ℤ) - 1 - (nc : ℤ) + 1).toNat → (finalCol_v1 x nc j).isSome := by
    intro j hj
    have hb := hbound j hj
    rcases Nat.lt_or_ge (j + nc + 1) x.length with hlt | hge
    · obtain ⟨_, _, _, _, he⟩ := finalCol_v1_full x nc j hlt
      rw [he]
      rfl
    · obtain ⟨_, _, he⟩ := finalCol_v1_last x nc j hb (by omega)
      rw [he]
      rfl
  obtain ⟨a, hA, hAl, hAg⟩ := colsUpTo_eq_some _ _ hAll
  obtain ⟨o, hO, hOl, hOg⟩ := colsUpTo_eq_some _ _ hObs
  obtain ⟨f, hF, hFl, hFg⟩ := colsUpTo_eq_some _ _ hFin
  refine ⟨a, o, f, ?_, hAl, hOl, hFl, hAg, hOg, hFg⟩
  unfold toeplitzData_v1
  rw [if_neg (by omega)]
  rw [hA, hO, hF]

theorem toeplitzData_v2_ok (x z : List QC) (nc : ℕ) (h1 : 1 ≤ nc)
    (hz : z.length = x.length) (hrows : 1 ≤ (x.length : ℤ) - 1 - nc + 1) :
    ∃ a o f, toeplitzData_v2 x z nc = .ok (a, o, f)
      ∧ a.length = ((x.length : ℤ) - 1 - (nc : ℤ) + 1).toNat
      ∧ o.length = ((x.length : ℤ) - 1 - (nc : ℤ) + 1).toNat
      ∧ f.length = ((x.length : ℤ) - 1 - (nc : ℤ) + 1).toNat
      ∧ (∀ j, j < ((x.length : ℤ) - 1 - (nc : ℤ) + 1).toNat → a[j]? = allCol x nc j)
      ∧ (∀ j, j < ((x.length : ℤ) - 1 - (nc : ℤ) + 1).toNat → o[j]? = obsCol z nc j)
      ∧ (∀ j, j < ((x.length : ℤ) - 1 - (nc : ℤ) + 1).toNat → f[j]? = finalCol_v2 x nc j) := by
  have hbound : ∀ j, j < ((x.length : ℤ) - 1 - (nc : ℤ) + 1).toNat → j + nc < x.length := by
    intro j hj
    omega
  have hAll : ∀ j, j < ((x.length : ℤ) - 1 - (nc : ℤ) + 1).toNat → (allCol x nc j).isSome := by
    intro j hj
    rw [allCol_eq x nc j (by have := hbound j hj; omega)]
    rfl
  have hObs : ∀ j, j < ((x.length : ℤ) - 1 - (nc : ℤ) + 1).toNat → (obsCol z nc j).isSome := by
    intro j hj
    rw [obsCol_eq z nc j (by have := hbound j hj; omega)]
    rfl
  have hFin : ∀ j, j < ((x.length : ℤ) - 1 - (nc : ℤ) + 1).toNat → (finalCol_v2 x nc j).isSome := by
    intro j hj
    obtain ⟨_, _, _, _, he⟩ := finalCol_v2_eq x nc j h1 (hbound j hj)
    rw [he]
    rfl
  obtain ⟨a, hA, hAl, hAg⟩ := colsUpTo_eq_some _ _ hAll
  obtain ⟨o, hO, hOl, hOg⟩ := colsUpTo_eq_some _ _ hObs
  obtain ⟨f, hF, hFl, hFg⟩ := colsUpTo_eq_some _ _ hFin
  refine ⟨a, o, f, ?_, hAl, hOl, hFl, hAg, hOg, hFg⟩
  unfold toeplitzData_v2
  rw [if_neg (by omega)]
  rw [hA, hO, hF]

/-! ### Claims C1, C7, C9 -/

/-- C7: `toeplitzData` raises its domain error exactly when
`numRows = sequenceLength - numColumns + 1 < 1` (with `sequenceLength =
len(trajectory) - 1`), and returns the three window matrices whenever
`numRows >= 1`; stated for both variants, for any window size at least 1
and observation row of the trajectory's length. -/
theorem C7_toeplitz_error_iff (x z : List QC) (nc : ℕ) (h1 : 1 ≤ nc)
    (hz : z.length = x.length) :
    ((∃ t, toeplitzData_v1 x z nc = .ok t) ↔ 1 ≤ (x.length : ℤ) - 1 - nc + 1)
  ∧ (toeplitzData_v1 x z nc = .error .domainError ↔ (x.length : ℤ) - 1 - nc + 1 < 1)
  ∧ ((∃ t, toeplitzData_v2 x z nc = .ok t) ↔ 1 ≤ (x.length : ℤ) - 1 - nc + 1)
  ∧ (toeplitzData_v2 x z nc = .error .domainError ↔ (x.length : ℤ) - 1 - nc + 1 < 1) := by
  rcases Int.lt_or_le ((x.length : ℤ) - 1 - nc + 1) 1 with hlt | hge
  · have e1 : toeplitzData_v1 x z nc = .error .domainError := by
      unfold toeplitzData_v1
      rw [if_pos hlt]
    have e2 : toeplitzData_v2 x z nc = .error .domainError := by
      unfold toeplitzData_v2
      rw [if_pos hlt]
    refine ⟨⟨?_, ?_⟩, ⟨fun _ => hlt, fun _ => e1⟩, ⟨?_, ?_⟩, ⟨fun _ => hlt, fun _ => e2⟩⟩
    · rintro ⟨t, ht⟩
      rw [e1] at ht
      simp at ht
    · intro hge'
      omega
    · rintro ⟨t, ht⟩
      rw [e2] at ht
      simp at ht
    · intro hge'
      omega
  · obtain ⟨a1, o1, f1, hok1, -⟩ := toeplitzData_v1_ok x z nc h1 hz hge
    obtain ⟨a2, o2, f2, hok2, -⟩ := toeplitzData_v2_ok x z nc h1 hz hge
    refine ⟨⟨fun _ => hge, fun _ => ⟨_, hok1⟩⟩, ⟨?_, ?_⟩,
            ⟨fun _ => hge, fun _ => ⟨_, hok2⟩⟩, ⟨?_, ?_⟩⟩
    · intro herr
      rw [hok1] at herr
      simp at herr
    · intro hlt'
      omega
    · intro herr
      rw [hok2] at herr
      simp at herr
    · intro hlt'
      omega

/-- C7 witness: trajectory of length 2 with window size 1 has
`numRows = 1`, so the build succeeds, and the two error equivalences
hold concretely. -/
theorem C7_witness :
    ((∃ t, toeplitzData_v1 [((1 : ℚ), 0), (2, 0)] [((1 : ℚ), 0), (2, 0)] 1 = .ok t)
      ↔ 1 ≤ (([((1 : ℚ), 0), (2, 0)] : List QC).length : ℤ) - 1 - 1 + 1)
  ∧ (toeplitzData_v1 [((1 : ℚ), 0), (2, 0)] [((1 : ℚ), 0), (2, 0)] 1 = .error .domainError
      ↔ (([((1 : ℚ), 0), (2, 0)] : List QC).length : ℤ) - 1 - 1 + 1 < 1)
  ∧ ((∃ t, toeplitzData_v2 [((1 : ℚ), 0), (2, 0)] [((1 : ℚ), 0), (2, 0)] 1 = .ok t)
      ↔ 1 ≤ (([((1 : ℚ), 0), (2, 0)] : List QC).length : ℤ) - 1 - 1 + 1)
  ∧ (toeplitzData_v2 [((1 : ℚ), 0), (2, 0)] [((1 : ℚ), 0), (2, 0)] 1 = .error .domainError
      ↔ (([((1 : ℚ), 0), (2, 0)] : List QC).length : ℤ) - 1 - 1 + 1 < 1) :=
  C7_toeplitz_error_iff [((1 : ℚ), 0), (2, 0)] [((1 : ℚ), 0), (2, 0)] 1
    (by decide) (by decide)

/-- C1 counterexample: on the length-4 trajectory `x = 1, 2, 3, 4` (with
imaginary parts `10, 20, 30, 40`) and `windowSize = 2`, window 0 of the
v1 `toeplitzData` final states holds `(x[2], x[3])` — real parts
`(3, 4)` — not the claimed `(x[windowSize-1], x[windowSize]) = (2, 3)`. -/
theorem C1_counterexample :
    ((toeplitzData_v1 [((1 : ℚ), 10), (2, 20), (3, 30), (4, 40)]
        [((1 : ℚ), 10), (2, 20), (3, 30), (4, 40)] 2).toOption.bind
      fun t => t.2.2[0]?) = some ([(3 : ℚ), 4], [(30 : ℚ), 40])
  ∧ ((toeplitzData_v1 [((1 : ℚ), 10), (2, 20), (3, 30), (4, 40)]
        [((1 : ℚ), 10), (2, 20), (3, 30), (4, 40)] 2).toOption.bind
      fun t => t.2.2[0]?) ≠ some ([(2 : ℚ), 3], [(20 : ℚ), 30]) := by
  decide

/-- C1 (amended to the v2 variant, the one the claim's window formula
matches): for every trajectory, valid window size and `numRows >= 1`,
`toeplitzData` succeeds, all three outputs have exactly
`numRows = sequenceLength - windowSize + 1` windows, and final-states
column `i` is the real/imag decomposition of the pair
`(x[i+windowSize-1], x[i+windowSize])`. -/
theorem C1_theorem (x z : List QC) (nc : ℕ) (h1 : 1 ≤ nc)
    (hz : z.length = x.length) (hrows : 1 ≤ (x.length : ℤ) - 1 - nc + 1) :
    ∃ a o f, toeplitzData_v2 x z nc = .ok (a, o, f)
      ∧ a.length = ((x.length : ℤ) - 1 - (nc : ℤ) + 1).toNat
      ∧ o.length = ((x.length : ℤ) - 1 - (nc : ℤ) + 1).toNat
      ∧ f.length = ((x.length : ℤ) - 1 - (nc : ℤ) + 1).toNat
      ∧ ∀ i, i < ((x.length : ℤ) - 1 - (nc : ℤ) + 1).toNat →
          ∃ cur next : QC, x[i + nc - 1]? = some cur ∧ x[i + nc]? = some next ∧
            f[i]? = some ([cur.1, next.1], [cur.2, next.2]) := by
  obtain ⟨a, o, f, hok, hAl, hOl, hFl, -, -, hFg⟩ := toeplitzData_v2_ok x z nc h1 hz hrows
  refine ⟨a, o, f, hok, hAl, hOl, hFl, ?_⟩
  intro i hi
  obtain ⟨cur, next, hc, hn, he⟩ := finalCol_v2_eq x nc i h1 (by omega)
  exact ⟨cur, next, hc, hn, by rw [hFg i hi, he]⟩

/-- C1 witness: the amended statement evaluated on the concrete length-4
trajectory with window size 2 (two windows). -/
theorem C1_witness :
    ∃ a o f, toeplitzData_v2 [((1 : ℚ), 10), (2, 20), (3, 30), (4, 40)]
        [((1 : ℚ), 10), (2, 20), (3, 30), (4, 40)] 2 = .ok (a, o, f)
      ∧ a.length = ((([((1 : ℚ), 10), (2, 20), (3, 30), (4, 40)] : List QC).length : ℤ) - 1 - (2 : ℤ) + 1).toNat
      ∧ o.length = ((([((1 : ℚ), 10), (2, 20), (3, 30), (4, 40)] : List QC).length : ℤ) - 1 - (2 : ℤ) + 1).toNat
      ∧ f.length = ((([((1 : ℚ), 10), (2, 20), (3, 30), (4, 40)] : List QC).length : ℤ) - 1 - (2 : ℤ) + 1).toNat
      ∧ ∀ i, i < ((([((1 : ℚ), 10), (2, 20), (3, 30), (4, 40)] : List QC).length : ℤ) - 1 - (2 : ℤ) + 1).toNat →
          ∃ cur next : QC,
            ([((1 : ℚ), 10), (2, 20), (3, 30), (4, 40)] : List QC)[i + 2 - 1]? = some cur
          ∧ ([((1 : ℚ), 10), (2, 20), (3, 30), (4, 40)] : List QC)[i + 2]? = some next
          ∧ f[i]? = some ([cur.1, next.1], [cur.2, next.2]) :=
  C1_theorem [((1 : ℚ), 10), (2, 20), (3, 30), (4, 40)]
    [((1 : ℚ), 10), (2, 20), (3, 30), (4, 40)] 2 (by decide) (by decide) (by decide)

/-- C9 counterexample: for the length-4 trajectory (`sequenceLength = 3`)
with `numColumns = 2`, the final-states read of the last window (`i = 1`)
is the slice `x[0, 3:5]`, which numpy clips to a single element — not the
two elements at indices `3` and `4` the claim describes — and index
`sequenceLength + 1 = 4` is not a valid index of the trajectory. -/
theorem C9_counterexample :
    (finalSlice_v1 [((1 : ℚ), 0), (2, 0), (3, 0), (4, 0)] 2 1).length ≠ 2
  ∧ ([((1 : ℚ), 0), (2, 0), (3, 0), (4, 0)] : List QC)[4]? = none := by
  decide

/-- C9 (amended): on every valid input (`windowSize >= 1`, `numRows >= 1`)
the v1 `toeplitzData` completes without error and never reads an element
beyond index `sequenceLength`: the last window's final-states slice is
clipped to the single element `x[sequenceLength]` (length 1, stop index
out of range), and the two-slot assignment succeeds by numpy
broadcasting, duplicating that element in both slots. -/
theorem C9_theorem (x z : List QC) (nc : ℕ) (h1 : 1 ≤ nc)
    (hz : z.length = x.length) (hrows : 1 ≤ (x.length : ℤ) - 1 - nc + 1) :
    ∃ a o f last, toeplitzData_v1 x z nc = .ok (a, o, f)
      ∧ x[x.length - 1]? = some last
      ∧ (finalSlice_v1 x nc (((x.length : ℤ) - 1 - (nc : ℤ) + 1).toNat - 1)).length = 1
      ∧ f[((x.length : ℤ) - 1 - (nc : ℤ) + 1).toNat - 1]? =
          some ([last.1, last.1], [last.2, last.2]) := by
  obtain ⟨a, o, f, hok, hAl, hOl, hFl, -, -, hFg⟩ := toeplitzData_v1_ok x z nc h1 hz hrows
  have hNpos : 1 ≤ ((x.length : ℤ) - 1 - (nc : ℤ) + 1).toNat := by omega
  have hj0 : (((x.length : ℤ) - 1 - (nc : ℤ) + 1).toNat - 1) + nc < x.length := by omega
  have hj1 : (((x.length : ℤ) - 1 - (nc : ℤ) + 1).toNat - 1) + nc + 1 = x.length := by omega
  obtain ⟨last, hlast, he⟩ := finalCol_v1_last x nc _ hj0 hj1
  refine ⟨a, o, f, last, hok, ?_, ?_, ?_⟩
  · rw [show x.length - 1 = (((x.length : ℤ) - 1 - (nc : ℤ) + 1).toNat - 1) + nc by omega]
    exact hlast
  · rw [finalSlice_v1, npSlice_length]
    omega
  · rw [hFg _ (by omega), he]

/-- C9 witness: the amended statement on the concrete length-4 trajectory
with `numColumns = 2`: the run succeeds and the last window's column
duplicates `x[3] = 4`. -/
theorem C9_witness :
    ∃ a o f last, toeplitzData_v1 [((1 : ℚ), 0), (2, 0), (3, 0), (4, 0)]
        [((1 : ℚ), 0), (2, 0), (3, 0), (4, 0)] 2 = .ok (a, o, f)
      ∧ ([((1 : ℚ), 0), (2, 0), (3, 0), (4, 0)] : List QC)[([((1 : ℚ), 0), (2, 0), (3, 0), (4, 0)] : List QC).length - 1]? = some last
      ∧ (finalSlice_v1 [((1 : ℚ), 0), (2, 0), (3, 0), (4, 0)] 2
          (((([((1 : ℚ), 0), (2, 0), (3, 0), (4, 0)] : List QC).length : ℤ) - 1 - (2 : ℤ) + 1).toNat - 1)).length = 1
      ∧ f[((([((1 : ℚ), 0), (2, 0), (3, 0), (4, 0)] : List QC).length : ℤ) - 1 - (2 : ℤ) + 1).toNat - 1]? =
          some ([last.1, last.1], [last.2, last.2]) :=
  C9_theorem [((1 : ℚ), 0), (2, 0), (3, 0), (4, 0)]
    [((1 : ℚ), 0), (2, 0), (3, 0), (4, 0)] 2 (by decide) (by decide) (by decide)

/-! ### Claims C2, C3, C6 -/

/-- C2 counterexample: at `p = 3/10` the v1 variant pairs the probability
row `(3/10, 7/10)` with the candidate list `['good', 'bad']` — not the
claimed `(1-p, p) = (7/10, 3/10)`; behaviourally, with uniform draw
`u = 1/2` the claim requires the chain to stay `good` (mass `7/10`), the
v2 variant does stay `good`, but the v1 variant moves to `bad`. -/
theorem C2_counterexample :
    (transitionProbabiltyArray_v1 (3 / 10) (1 / 5)).1 ≠ (1 - 3 / 10, (3 : ℚ) / 10)
  ∧ (markovStep_v1 (3 / 10) (1 / 5) .good ⟨fun _ => 1 / 2, 0⟩).1 = .bad
  ∧ (markovStep_v2 (3 / 10) (1 / 5) .good ⟨fun _ => 1 / 2, 0⟩).1 = .good := by
  refine ⟨?_, ?_, ?_⟩
  · simp only [transitionProbabiltyArray_v1, Prod.mk.injEq, not_and]
    intro h
    norm_num at h
  · simp only [markovStep_v1, npChoice2, RNG.next, transitionProbabiltyArray_v1,
      transitionStateArray]
    rw [if_neg (by norm_num)]
  · simp only [markovStep_v2, npChoice2, RNG.next, transitionProbabiltyArray_v2,
      transitionStateArray]
    rw [if_pos (by norm_num)]

/-- C2 (amended): the two variants use opposite conventions.  The v2
variant pairs probability vector `(1-p, p)` with `['good', 'bad']` and
`(1-q, q)` with `['bad', 'good']` (so it stays `good` with probability
`1-p`, as the claim says), while the v1 variant pairs `(p, 1-p)` and
`(q, 1-q)` (staying `good` with probability `p`); the categorical draw
selects the first candidate exactly when the uniform draw is below the
first probability. -/
theorem C2_theorem (p q : ℚ) (r : RNG) :
    transitionProbabiltyArray_v2 p q = ((1 - p, p), (1 - q, q))
  ∧ transitionProbabiltyArray_v1 p q = ((p, 1 - p), (q, 1 - q))
  ∧ transitionStateArray = ((.good, .bad), (.bad, .good))
  ∧ (markovStep_v2 p q .good r).1 = (if r.g r.k < 1 - p then .good else .bad)
  ∧ (markovStep_v2 p q .bad r).1 = (if r.g r.k < 1 - q then .bad else .good)
  ∧ (markovStep_v1 p q .good r).1 = (if r.g r.k < p then .good else .bad)
  ∧ (markovStep_v1 p q .bad r).1 = (if r.g r.k < q then .bad else .good) := by
  refine ⟨rfl, rfl, rfl, ?_, ?_, ?_, ?_⟩ <;>
    simp [markovStep_v1, markovStep_v2, npChoice2, RNG.next,
      transitionProbabiltyArray_v1, transitionProbabiltyArray_v2,
      transitionStateArray]

/-- C3 counterexample: on a stream whose every draw is nonzero, the v1
generator's step-0 true state is the zero vector (the pre-loop
`np.zeros` value), the mismatch generator's step-0 state is likewise the
zero vector (its `m == 0` branch zeroes it), yet the Gaussian warm-start
value at the position those draws would be taken from is nonzero — so
neither step-0 state is a unit-variance complex Gaussian draw. -/
theorem C3_counterexample :
    (GilEllDataGen_v1 ⟨1, 1, 1⟩ ⟨1 / 2, 1 / 2, (1, 0), (0, 0), 1⟩ .good (-1)
        ⟨fun n => (n : ℚ) + 1, 0⟩).1.1.head? = some ((0 : ℚ), (0 : ℚ))
  ∧ (mismatchSeqRun ⟨1, 1, 1⟩ (1 / 2, 1 / 5) 0 2
        (((0 : ℚ), (0 : ℚ)), ((0 : ℚ), (0 : ℚ)))
        ⟨fun n => (n : ℚ) + 1, 0⟩).1.head? =
      some (((0 : ℚ), (0 : ℚ)), ((0 : ℚ), (0 : ℚ)))
  ∧ (warmStart ⟨1, 1, 1⟩ ⟨fun n => (n : ℚ) + 1, 6⟩).1 ≠
      (((0 : ℚ), (0 : ℚ)), ((0 : ℚ), (0 : ℚ))) := by
  refine ⟨rfl, rfl, ?_⟩
  simp only [warmStart, RNG.next, Prod.mk.injEq, not_and]
  intro h
  norm_num at h

/-- C3 (amended): only the v2 variant initializes the step-0 state as the
Gaussian warm start — its step-0 state vector is exactly the four fresh
`randn` draws over `sqrt(2)` (independent of the incoming state, the
Markov regime and the AR recursion), and the recorded `x[0]` is that
draw's first component; the v1 variant records `x[0] = 0` (its zeroed
`x_current` is untouched at step 0), and the mismatch generator's step-0
state vector is likewise the zero vector. -/
theorem C3_theorem (c : NoiseConsts) (cfg : GilParams) (F : ℚ × ℚ)
    (n : ℕ) (st : MCState) (xc : QC × QC) (r : RNG) :
    (gilStep_v2 c cfg 0 st xc r).2.1 =
      ((r.g (r.k + 6) / c.sqrt2, r.g (r.k + 8) / c.sqrt2),
       (r.g (r.k + 7) / c.sqrt2, r.g (r.k + 9) / c.sqrt2))
  ∧ (gilRun_v2 c cfg 0 (n + 1) st xc r).1.head? =
      some (r.g (r.k + 6) / c.sqrt2, r.g (r.k + 8) / c.sqrt2)
  ∧ (gilRun_v1 c cfg 0 (n + 1) st (((0 : ℚ), (0 : ℚ)), ((0 : ℚ), (0 : ℚ))) r).1.head? =
      some ((0 : ℚ), (0 : ℚ))
  ∧ (mismatchSeqRun c F 0 (n + 1) xc r).1.head? =
      some (((0 : ℚ), (0 : ℚ)), ((0 : ℚ), (0 : ℚ))) :=
  ⟨rfl, rfl, rfl, rfl⟩

/-- C6 counterexample: with the ignored seed `-1` (the source only seeds
when `seed > 0`), two successive calls with identical parameters — the
second starting from the global RNG state the first left behind — return
different trajectories. -/
theorem C6_counterexample :
    (GilEllDataGen_v1 ⟨1, 1, 1⟩ ⟨1 / 2, 1 / 2, (1, 0), (0, 0), 1⟩ .good (-1)
        ⟨fun n => (n : ℚ), 0⟩).1
  ≠ (GilEllDataGen_v1 ⟨1, 1, 1⟩ ⟨1 / 2, 1 / 2, (1, 0), (0, 0), 1⟩ .good (-1)
        (GilEllDataGen_v1 ⟨1, 1, 1⟩ ⟨1 / 2, 1 / 2, (1, 0), (0, 0), 1⟩ .good (-1)
          ⟨fun n => (n : ℚ), 0⟩).2).1 := by
  norm_num [GilEllDataGen_v1, gilRun_v1, gilStep_v1, markovStep_v1, npChoice2,
    startStateOf, sysNoise, obsNoise, RNG.next, Fapp, addV, addC, coeffsOf,
    transitionProbabiltyArray_v1, transitionStateArray, mkRNG]

/-- C6 (amended): for every seed greater than 0 the generator reseeds the
global RNG, so its output — trajectories and final RNG state alike — is a
function of the parameters and seed only, independent of the ambient RNG
state; hence any two calls with identical parameters and such a seed are
bit-identical.  (For `seed <= 0` the seed is ignored, see the
counterexample.)  Stated for both variants. -/
theorem C6_theorem (c : NoiseConsts) (cfg : GilParams) (pol : StartPolicy)
    (seed : ℤ) (h : 0 < seed) (amb amb' : RNG) :
    GilEllDataGen_v1 c cfg pol seed amb = GilEllDataGen_v1 c cfg pol seed amb'
  ∧ GilEllDataGen_v2 c cfg pol seed amb = GilEllDataGen_v2 c cfg pol seed amb' := by
  constructor
  · unfold GilEllDataGen_v1
    rw [if_pos h, if_pos h]
  · unfold GilEllDataGen_v2
    rw [if_pos h, if_pos h]

/-- C6 witness: with seed 7 the output does not depend on the ambient
RNG state. -/
theorem C6_witness :
    GilEllDataGen_v1 ⟨1, 1, 1⟩ ⟨1 / 2, 1 / 2, (1, 0), (0, 0), 1⟩ .good 7
        ⟨fun n => (n : ℚ), 0⟩
      = GilEllDataGen_v1 ⟨1, 1, 1⟩ ⟨1 / 2, 1 / 2, (1, 0), (0, 0), 1⟩ .good 7
        ⟨fun n => 2 * (n : ℚ) + 5, 3⟩
  ∧ GilEllDataGen_v2 ⟨1, 1, 1⟩ ⟨1 / 2, 1 / 2, (1, 0), (0, 0), 1⟩ .good 7
        ⟨fun n => (n : ℚ), 0⟩
      = GilEllDataGen_v2 ⟨1, 1, 1⟩ ⟨1 / 2, 1 / 2, (1, 0), (0, 0), 1⟩ .good 7
        ⟨fun n => 2 * (n : ℚ) + 5, 3⟩ :=
  C6_theorem ⟨1, 1, 1⟩ ⟨1 / 2, 1 / 2, (1, 0), (0, 0), 1⟩ .good 7 (by decide)
    ⟨fun n => (n : ℚ), 0⟩ ⟨fun n => 2 * (n : ℚ) + 5, 3⟩

/-! ### Claims C8 and C10 -/

/-- C8: when `batchSize` divides the sample count, `convertToBatched`
places original sample `i*batchSize + b` at batch `i`, element `b`, in
both output tensors (the transform is a pure index rearrangement — the
embedding is a pure function of its array arguments, with no RNG
argument at all); consequently batch `n / batchSize`, element
`n % batchSize` recovers sample `n`, i.e. concatenating the batches in
order reconstructs the original sample ordering. -/
theorem C8_theorem (sys : Arr2) (obs : Arr3) (numSeq batchSize b ch t i n : ℕ)
    (hb : 0 < batchSize) (hmod : numSeq % batchSize = 0)
    (hbb : b < batchSize) (hi : i < numSeq / batchSize) (hn : n < numSeq) :
    ((convertToBatched sys obs numSeq batchSize).1 b ch i = sys ch (i * batchSize + b))
  ∧ ((convertToBatched sys obs numSeq batchSize).2 b ch t i = obs ch t (i * batchSize + b))
  ∧ ((convertToBatched sys obs numSeq batchSize).1 (n % batchSize) ch (n / batchSize) = sys ch n)
  ∧ ((convertToBatched sys obs numSeq batchSize).2 (n % batchSize) ch t (n / batchSize) = obs ch t n) := by
  have hmodlt : n % batchSize < batchSize := Nat.mod_lt _ hb
  have hdivlt : n / batchSize < numSeq / batchSize :=
    Nat.div_lt_div_of_lt_of_dvd (Nat.dvd_of_mod_eq_zero hmod) hn
  have hrecomb : n / batchSize * batchSize + n % batchSize = n := by
    rw [mul_comm]
    exact Nat.div_add_mod n batchSize
  refine ⟨?_, ?_, ?_, ?_⟩
  · simp only [convertToBatched, npTranspose2, npSliceLast2]
    rw [if_pos ⟨hi, hbb⟩]
  · simp only [convertToBatched, npSwapaxes12, npTranspose3, npSliceLast3]
    rw [if_pos ⟨hi, hbb⟩]
  · simp only [convertToBatched, npTranspose2, npSliceLast2]
    rw [if_pos ⟨hdivlt, hmodlt⟩, hrecomb]
  · simp only [convertToBatched, npSwapaxes12, npTranspose3, npSliceLast3]
    rw [if_pos ⟨hdivlt, hmodlt⟩, hrecomb]

/-- C8 witness: the mapping evaluated on concrete arrays with 4 samples
and batch size 2, at batch 1, element 1 (sample 3). -/
theorem C8_witness :
    ((convertToBatched (fun ch k => (ch : ℚ) + 10 * k)
        (fun ch t k => (ch : ℚ) + 100 * t + 10 * k) 4 2).1 1 0 1 =
      ((fun ch k => (ch : ℚ) + 10 * k : Arr2)) 0 (1 * 2 + 1))
  ∧ ((convertToBatched (fun ch k => (ch : ℚ) + 10 * k)
        (fun ch t k => (ch : ℚ) + 100 * t + 10 * k) 4 2).2 1 0 1 1 =
      ((fun ch t k => (ch : ℚ) + 100 * t + 10 * k : Arr3)) 0 1 (1 * 2 + 1))
  ∧ ((convertToBatched (fun ch k => (ch : ℚ) + 10 * k)
        (fun ch t k => (ch : ℚ) + 100 * t + 10 * k) 4 2).1 (3 % 2) 0 (3 / 2) =
      ((fun ch k => (ch : ℚ) + 10 * k : Arr2)) 0 3)
  ∧ ((convertToBatched (fun ch k => (ch : ℚ) + 10 * k)
        (fun ch t k => (ch : ℚ) + 100 * t + 10 * k) 4 2).2 (3 % 2) 0 1 (3 / 2) =
      ((fun ch t k => (ch : ℚ) + 100 * t + 10 * k : Arr3)) 0 1 3) := by
  exact C8_theorem (fun ch k => (ch : ℚ) + 10 * k)
    (fun ch t k => (ch : ℚ) + 100 * t + 10 * k) 4 2 1 0 1 1 3
    (by decide) (by decide) (by decide) (by decide) (by decide)

/-- C10: passing a bare float as `params[3]` makes `GilEllDataGen` raise
`TypeError` before generating any data, because the source evaluates
`len(params[3]) == 1` before the `type(params[3]) is float` test and
`len()` of a float is a `TypeError`; so the documented bare-float form
never reaches either the float branch or the generation loop (stated for
both variants, whose dispatch code is identical). -/
theorem C10_theorem (v : ℚ) (numParams : ℕ) (h : 4 ≤ numParams)
    (c : NoiseConsts) (cfg : GilParams) (pol : StartPolicy) (seed : ℤ)
    (amb : RNG) :
    setupQR numParams (.pyfloat v) = .error .typeError
  ∧ GilEllDataGenChecked_v1 c numParams (.pyfloat v) cfg pol seed amb = .error .typeError
  ∧ GilEllDataGenChecked_v2 c numParams (.pyfloat v) cfg pol seed amb = .error .typeError := by
  have hs : setupQR numParams (.pyfloat v) = .error .typeError := by
    unfold setupQR
    rw [if_neg (by omega)]
    rfl
  refine ⟨hs, ?_, ?_⟩
  · unfold GilEllDataGenChecked_v1
    rw [hs]
    rfl
  · unfold GilEllDataGenChecked_v2
    rw [hs]
    rfl

/-- C10 witness: a concrete bare-float `params[3] = 0.3` with 5 params
present aborts both variants with `TypeError`. -/
theorem C10_witness :
    setupQR 5 (.pyfloat (3 / 10)) = .error .typeError
  ∧ GilEllDataGenChecked_v1 ⟨1, 1, 1⟩ 5 (.pyfloat (3 / 10))
      ⟨1 / 2, 1 / 2, (1, 0), (0, 0), 1⟩ .good (-1) ⟨fun n => (n : ℚ), 0⟩ = .error .typeError
  ∧ GilEllDataGenChecked_v2 ⟨1, 1, 1⟩ 5 (.pyfloat (3 / 10))
      ⟨1 / 2, 1 / 2, (1, 0), (0, 0), 1⟩ .good (-1) ⟨fun n => (n : ℚ), 0⟩ = .error .typeError :=
  C10_theorem (3 / 10) 5 (by decide) ⟨1, 1, 1⟩ ⟨1 / 2, 1 / 2, (1, 0), (0, 0), 1⟩
    .good (-1) ⟨fun n => (n : ℚ), 0⟩

/-! ### Claims C4 and C5: the stability rejection loop -/

theorem magCheck_true_iff (a1 a2 : ℚ) :
    magCheck a1 a2 = true ↔ (|a2| ≤ 1 ∧ |a1| ≤ 1 - a2) := by
  simp [magCheck]

theorem root_parts (a1 a2 : ℚ) (z : ℂ) (hz : z ^ 2 = (a1 : ℂ) * z + a2) :
    z.re ^ 2 - z.im ^ 2 = (a1 : ℝ) * z.re + (a2 : ℝ) ∧
      2 * z.re * z.im = (a1 : ℝ) * z.im := by
  have hre := congrArg Complex.re hz
  have him := congrArg Complex.im hz
  simp only [pow_two, Complex.mul_re, Complex.mul_im, Complex.add_re,
    Complex.add_im, Complex.ratCast_re, Complex.ratCast_im] at hre him
  constructor
  · nlinarith [hre]
  · nlinarith [him]

/-- Sufficiency half of the Schur-Cohn style magnitude test: if the
rational test `magCheck` passes, then every complex root of
`t^2 - a1*t - a2` has magnitude at most 1. -/
theorem magCheck_eigStable (a1 a2 : ℚ) (h : magCheck a1 a2 = true) :
    eigStable a1 a2 := by
  rw [magCheck_true_iff] at h
  have h2 : |(a2 : ℝ)| ≤ 1 := by exact_mod_cast h.1
  have h1 : |(a1 : ℝ)| ≤ 1 - (a2 : ℝ) := by exact_mod_cast h.2
  obtain ⟨h2l, h2r⟩ := abs_le.mp h2
  obtain ⟨h1l, h1r⟩ := abs_le.mp h1
  intro z hz
  obtain ⟨hre, him⟩ := root_parts a1 a2 z hz
  have hsq : Complex.abs z ^ 2 = z.re ^ 2 + z.im ^ 2 := by
    rw [Complex.sq_abs, Complex.normSq_apply]
    ring
  have hb : Complex.abs z ^ 2 ≤ 1 := by
    rcases eq_or_ne z.im 0 with hy | hy
    · rw [hsq, hy]
      have hx : z.re ^ 2 = (a1 : ℝ) * z.re + (a2 : ℝ) := by
        rw [hy] at hre
        linarith
      have hle : z.re ≤ 1 := by
        by_contra hgt
        push_neg at hgt
        have k1 : (z.re - 1) * (z.re + (a2 : ℝ)) = ((a1 : ℝ) + a2 - 1) * z.re := by
          linear_combination hx
        have p1 : 0 < (z.re - 1) * (z.re + (a2 : ℝ)) :=
          mul_pos (by linarith) (by linarith)
        nlinarith [k1, p1]
      have hge : -1 ≤ z.re := by
        by_contra hlt
        push_neg at hlt
        have k1 : (z.re + 1) * (z.re - (a2 : ℝ)) = ((a1 : ℝ) - a2 + 1) * z.re := by
          linear_combination hx
        have p1 : 0 < (z.re + 1) * (z.re - (a2 : ℝ)) :=
          mul_pos_of_neg_of_neg (by linarith) (by linarith)
        nlinarith [k1, p1]
      nlinarith [hle, hge]
    · have hx : 2 * z.re = (a1 : ℝ) :=
        mul_right_cancel₀ hy (by linarith [him])
      rw [hsq]
      nlinarith [hre, hx]
  nlinarith [Complex.abs.nonneg z, hb]

/-- Necessity half: if every complex root of `t^2 - a1*t - a2` has
magnitude at most 1 then the rational magnitude test passes, so
`magCheck` decides exactly the claimed eigenvalue-magnitude condition. -/
theorem eigStable_magCheck (a1 a2 : ℚ) (h : eigStable a1 a2) :
    magCheck a1 a2 = true := by
  rw [magCheck_true_iff]
  rcases le_or_lt 0 ((a1 : ℝ) ^ 2 + 4 * (a2 : ℝ)) with hd | hd
  · have hs2 : Real.sqrt ((a1 : ℝ) ^ 2 + 4 * (a2 : ℝ)) ^ 2
        = (a1 : ℝ) ^ 2 + 4 * (a2 : ℝ) := Real.sq_sqrt hd
    have hroot : ∀ r : ℝ, r ^ 2 = (a1 : ℝ) * r + (a2 : ℝ) → |r| ≤ 1 := by
      intro r hr
      have hc : ((r : ℂ)) ^ 2 = (a1 : ℂ) * (r : ℂ) + (a2 : ℂ) := by
        exact_mod_cast congrArg (fun t : ℝ => (t : ℂ)) hr
      have := h (r : ℂ) hc
      rwa [Complex.abs_ofReal] at this
    have hr1 := hroot (((a1 : ℝ) + Real.sqrt ((a1 : ℝ) ^ 2 + 4 * (a2 : ℝ))) / 2)
      (by linear_combination ((1 : ℝ) / 4) * hs2)
    have hr2 := hroot (((a1 : ℝ) - Real.sqrt ((a1 : ℝ) ^ 2 + 4 * (a2 : ℝ))) / 2)
      (by linear_combination ((1 : ℝ) / 4) * hs2)
    obtain ⟨l1, u1⟩ := abs_le.mp hr1
    obtain ⟨l2, u2⟩ := abs_le.mp hr2
    have hprod : (((a1 : ℝ) + Real.sqrt ((a1 : ℝ) ^ 2 + 4 * (a2 : ℝ))) / 2)
        * (((a1 : ℝ) - Real.sqrt ((a1 : ℝ) ^ 2 + 4 * (a2 : ℝ))) / 2) = -(a2 : ℝ) := by
      linear_combination (-(1 : ℝ) / 4) * hs2
    constructor
    · have habs : |(a2 : ℝ)| ≤ 1 := by
        rw [abs_le]
        constructor <;> nlinarith [l1, u1, l2, u2, hprod]
      exact_mod_cast habs
    · have habs : |(a1 : ℝ)| ≤ 1 - (a2 : ℝ) := by
        rw [abs_le]
        constructor <;> nlinarith [l1, u1, l2, u2, hprod]
      exact_mod_cast habs
  · set t : ℝ := Real.sqrt (-((a1 : ℝ) ^ 2 + 4 * (a2 : ℝ))) with ht
    have ht2 : t ^ 2 = -((a1 : ℝ) ^ 2 + 4 * (a2 : ℝ)) := Real.sq_sqrt (by linarith)
    have hz : (⟨(a1 : ℝ) / 2, t / 2⟩ : ℂ) ^ 2
        = (a1 : ℂ) * (⟨(a1 : ℝ) / 2, t / 2⟩ : ℂ) + (a2 : ℂ) := by
      apply Complex.ext
      · simp only [pow_two, Complex.mul_re, Complex.add_re,
          Complex.ratCast_re, Complex.ratCast_im]
        nlinarith [ht2]
      · simp only [pow_two, Complex.mul_im, Complex.add_im,
          Complex.ratCast_re, Complex.ratCast_im]
        ring
    have habs := h _ hz
    have hn : Complex.abs (⟨(a1 : ℝ) / 2, t / 2⟩ : ℂ) ^ 2
        = ((a1 : ℝ) / 2) ^ 2 + (t / 2) ^ 2 := by
      rw [Complex.sq_abs, Complex.normSq_apply]
      ring
    have hb : ((a1 : ℝ) / 2) ^ 2 + (t / 2) ^ 2 ≤ 1 := by
      nlinarith [habs, hn, Complex.abs.nonneg (⟨(a1 : ℝ) / 2, t / 2⟩ : ℂ)]
    have hval : ((a1 : ℝ) / 2) ^ 2 + (t / 2) ^ 2 = -(a2 : ℝ) := by
      linear_combination ((1 : ℝ) / 4) * ht2
    constructor
    · have habs2 : |(a2 : ℝ)| ≤ 1 := by
        rw [abs_le]
        constructor <;>
          nlinarith [hb, hval, sq_nonneg ((a1 : ℝ) / 2), sq_nonneg (t / 2)]
      exact_mod_cast habs2
    · have habs1 : |(a1 : ℝ)| ≤ 1 - (a2 : ℝ) := by
        rw [abs_le]
        constructor <;>
          nlinarith [hb, hval, sq_nonneg (1 - (a1 : ℝ) / 2), sq_nonneg (1 + (a1 : ℝ) / 2),
            sq_nonneg (t / 2)]
      exact_mod_cast habs1

/-- The rational magnitude test decides exactly the condition claim C5
asserts of the returned matrices: no eigenvalue of `[[a1, a2], [1, 0]]`
exceeds magnitude 1. -/
theorem magCheck_iff_eigStable (a1 a2 : ℚ) :
    magCheck a1 a2 = true ↔ eigStable a1 a2 :=
  ⟨magCheck_eigStable a1 a2, eigStable_magCheck a1 a2⟩

/-- Sufficiency half of the box test: if `stableCheck` passes, every
complex root of `t^2 - a1*t - a2` has `|Re| <= 1` and `|Im| <= 1`. -/
theorem stableCheck_eigBox (a1 a2 : ℚ) (h : stableCheck a1 a2 = true) :
    eigBox a1 a2 := by
  unfold stableCheck at h
  intro z hz
  obtain ⟨hre, him⟩ := root_parts a1 a2 z hz
  rcases le_or_lt 0 (a1 ^ 2 + 4 * a2) with hd | hd
  · rw [if_pos hd, decide_eq_true_eq] at h
    obtain ⟨ha1, hq1, hq2⟩ := h
    have ha1r : |(a1 : ℝ)| ≤ 2 := by exact_mod_cast ha1
    have hq1r : (a2 : ℝ) ≤ 1 - (a1 : ℝ) := by exact_mod_cast hq1
    have hq2r : (a2 : ℝ) ≤ 1 + (a1 : ℝ) := by exact_mod_cast hq2
    have hdr : (0 : ℝ) ≤ (a1 : ℝ) ^ 2 + 4 * (a2 : ℝ) := by exact_mod_cast hd
    obtain ⟨ha1l, ha1u⟩ := abs_le.mp ha1r
    rcases eq_or_ne z.im 0 with hy | hy
    · have hx : z.re ^ 2 = (a1 : ℝ) * z.re + (a2 : ℝ) := by
        rw [hy] at hre
        linarith
      refine ⟨?_, ?_⟩
      · rw [abs_le]
        constructor
        · by_contra hlt
          push_neg at hlt
          have k1 : (z.re + 1) * (z.re - 1 - (a1 : ℝ)) = (a2 : ℝ) - 1 - (a1 : ℝ) := by
            linear_combination hx
          have p1 : 0 < (z.re + 1) * (z.re - 1 - (a1 : ℝ)) :=
            mul_pos_of_neg_of_neg (by linarith) (by linarith)
          linarith
        · by_contra hgt
          push_neg at hgt
          have k1 : (z.re - 1) * (z.re + 1 - (a1 : ℝ)) = (a1 : ℝ) + (a2 : ℝ) - 1 := by
            linear_combination hx
          have p1 : 0 < (z.re - 1) * (z.re + 1 - (a1 : ℝ)) :=
            mul_pos (by linarith) (by linarith)
          linarith
      · rw [hy]
        simp
    · exfalso
      have hx : 2 * z.re = (a1 : ℝ) := mul_right_cancel₀ hy (by linarith [him])
      have hax : 2 * z.re * z.re = (a1 : ℝ) * z.re := by rw [hx]
      have hx2 : 2 * z.re * (2 * z.re) = (a1 : ℝ) * (a1 : ℝ) := by rw [hx]
      have hy2 : 0 < z.im ^ 2 :=
        lt_of_le_of_ne (sq_nonneg _) (Ne.symm (pow_ne_zero 2 hy))
      nlinarith [hre, hax, hx2, hdr, hy2]
  · rw [if_neg (not_le.mpr hd), decide_eq_true_eq] at h
    obtain ⟨ha1, hlow⟩ := h
    have ha1r : |(a1 : ℝ)| ≤ 2 := by exact_mod_cast ha1
    have hlowr : -1 - (a1 : ℝ) ^ 2 / 4 ≤ (a2 : ℝ) := by exact_mod_cast hlow
    have hdr : ((a1 : ℝ) ^ 2 + 4 * (a2 : ℝ)) < 0 := by exact_mod_cast hd
    rcases eq_or_ne z.im 0 with hy | hy
    · exfalso
      have hx : z.re ^ 2 = (a1 : ℝ) * z.re + (a2 : ℝ) := by
        rw [hy] at hre
        linarith
      nlinarith [hx, hdr, sq_nonneg (2 * z.re - (a1 : ℝ))]
    · have hx : 2 * z.re = (a1 : ℝ) := mul_right_cancel₀ hy (by linarith [him])
      have hax : 2 * z.re * z.re = (a1 : ℝ) * z.re := by rw [hx]
      have hx2 : 2 * z.re * (2 * z.re) = (a1 : ℝ) * (a1 : ℝ) := by rw [hx]
      obtain ⟨ha1l, ha1u⟩ := abs_le.mp ha1r
      refine ⟨?_, ?_⟩
      · rw [abs_le]
        constructor <;> linarith
      · have hy2 : z.im ^ 2 ≤ 1 := by nlinarith [hre, hax, hx2, hlowr]
        rw [abs_le]
        constructor
        · nlinarith [hy2, sq_nonneg (z.im + 1)]
        · nlinarith [hy2, sq_nonneg (z.im - 1)]

/-- Necessity half of the box test: if every complex root has
`|Re| <= 1` and `|Im| <= 1` then `stableCheck` passes, so the embedded
Boolean decides exactly the source's elementwise acceptance condition. -/
theorem eigBox_stableCheck (a1 a2 : ℚ) (h : eigBox a1 a2) :
    stableCheck a1 a2 = true := by
  unfold stableCheck
  rcases le_or_lt 0 (a1 ^ 2 + 4 * a2) with hd | hd
  · rw [if_pos hd, decide_eq_true_eq]
    have hdr : (0 : ℝ) ≤ (a1 : ℝ) ^ 2 + 4 * (a2 : ℝ) := by exact_mod_cast hd
    have hs2 : Real.sqrt ((a1 : ℝ) ^ 2 + 4 * (a2 : ℝ)) ^ 2
        = (a1 : ℝ) ^ 2 + 4 * (a2 : ℝ) := Real.sq_sqrt hdr
    have hroot : ∀ r : ℝ, r ^ 2 = (a1 : ℝ) * r + (a2 : ℝ) → |r| ≤ 1 := by
      intro r hr
      have hc : ((r : ℂ)) ^ 2 = (a1 : ℂ) * (r : ℂ) + (a2 : ℂ) := by
        exact_mod_cast congrArg (fun t : ℝ => (t : ℂ)) hr
      have hb := h (r : ℂ) hc
      simpa using hb.1
    have hr1 := hroot (((a1 : ℝ) + Real.sqrt ((a1 : ℝ) ^ 2 + 4 * (a2 : ℝ))) / 2)
      (by linear_combination ((1 : ℝ) / 4) * hs2)
    have hr2 := hroot (((a1 : ℝ) - Real.sqrt ((a1 : ℝ) ^ 2 + 4 * (a2 : ℝ))) / 2)
      (by linear_combination ((1 : ℝ) / 4) * hs2)
    obtain ⟨l1, u1⟩ := abs_le.mp hr1
    obtain ⟨l2, u2⟩ := abs_le.mp hr2
    have hsum : (((a1 : ℝ) + Real.sqrt ((a1 : ℝ) ^ 2 + 4 * (a2 : ℝ))) / 2)
        + (((a1 : ℝ) - Real.sqrt ((a1 : ℝ) ^ 2 + 4 * (a2 : ℝ))) / 2) = (a1 : ℝ) := by
      ring
    have hprod : (((a1 : ℝ) + Real.sqrt ((a1 : ℝ) ^ 2 + 4 * (a2 : ℝ))) / 2)
        * (((a1 : ℝ) - Real.sqrt ((a1 : ℝ) ^ 2 + 4 * (a2 : ℝ))) / 2) = -(a2 : ℝ) := by
      linear_combination (-(1 : ℝ) / 4) * hs2
    refine ⟨?_, ?_, ?_⟩
    · have habs : |(a1 : ℝ)| ≤ 2 := by
        rw [abs_le]
        constructor <;> linarith [hsum]
      exact_mod_cast habs
    · have hfac : (0 : ℝ) ≤
          (1 - ((a1 : ℝ) + Real.sqrt ((a1 : ℝ) ^ 2 + 4 * (a2 : ℝ))) / 2)
          * (1 - ((a1 : ℝ) - Real.sqrt ((a1 : ℝ) ^ 2 + 4 * (a2 : ℝ))) / 2) :=
        mul_nonneg (by linarith) (by linarith)
      have hq : (a2 : ℝ) ≤ 1 - (a1 : ℝ) := by nlinarith [hfac, hprod, hsum]
      exact_mod_cast hq
    · have hfac : (0 : ℝ) ≤
          (1 + ((a1 : ℝ) + Real.sqrt ((a1 : ℝ) ^ 2 + 4 * (a2 : ℝ))) / 2)
          * (1 + ((a1 : ℝ) - Real.sqrt ((a1 : ℝ) ^ 2 + 4 * (a2 : ℝ))) / 2) :=
        mul_nonneg (by linarith) (by linarith)
      have hq : (a2 : ℝ) ≤ 1 + (a1 : ℝ) := by nlinarith [hfac, hprod, hsum]
      exact_mod_cast hq
  · rw [if_neg (not_le.mpr hd), decide_eq_true_eq]
    set t : ℝ := Real.sqrt (-((a1 : ℝ) ^ 2 + 4 * (a2 : ℝ))) with ht
    have hdr : ((a1 : ℝ) ^ 2 + 4 * (a2 : ℝ)) < 0 := by exact_mod_cast hd
    have ht2 : t ^ 2 = -((a1 : ℝ) ^ 2 + 4 * (a2 : ℝ)) := Real.sq_sqrt (by linarith)
    have hz : (⟨(a1 : ℝ) / 2, t / 2⟩ : ℂ) ^ 2
        = (a1 : ℂ) * (⟨(a1 : ℝ) / 2, t / 2⟩ : ℂ) + (a2 : ℂ) := by
      apply Complex.ext
      · simp only [pow_two, Complex.mul_re, Complex.add_re,
          Complex.ratCast_re, Complex.ratCast_im]
        nlinarith [ht2]
      · simp only [pow_two, Complex.mul_im, Complex.add_im,
          Complex.ratCast_re, Complex.ratCast_im]
        ring
    have hb := h _ hz
    have hbre : |(a1 : ℝ) / 2| ≤ 1 := hb.1
    have hbim : |t / 2| ≤ 1 := hb.2
    obtain ⟨rl, ru⟩ := abs_le.mp hbre
    obtain ⟨il, iu⟩ := abs_le.mp hbim
    refine ⟨?_, ?_⟩
    · have habs : |(a1 : ℝ)| ≤ 2 := by
        rw [abs_le]
        constructor <;> linarith
      exact_mod_cast habs
    · have hq : -1 - (a1 : ℝ) ^ 2 / 4 ≤ (a2 : ℝ) := by
        nlinarith [ht2, mul_nonneg (by linarith : (0 : ℝ) ≤ 1 - t / 2)
          (by linarith : (0 : ℝ) ≤ 1 + t / 2)]
      exact_mod_cast hq

/-- The Boolean acceptance test of the embedded rejection loop decides
exactly the source's elementwise condition on `torch.eig`'s (re, im)
output: every eigenvalue of `[[a1, a2], [1, 0]]` has `|Re| <= 1` and
`|Im| <= 1`. -/
theorem stableCheck_iff_eigBox (a1 a2 : ℚ) :
    stableCheck a1 a2 = true ↔ eigBox a1 a2 :=
  ⟨stableCheck_eigBox a1 a2, eigBox_stableCheck a1 a2⟩

theorem ARCoeffGen_none_iff (means : ℚ × ℚ) (noiseVar : ℚ) (g : ℕ → ℚ)
    (k fuel : ℕ) :
    ARCoeffecientGeneration means noiseVar g k fuel = none ↔
      ∀ j, j < fuel →
        stableCheck (means.1 + g (2 * (k + j)) * noiseVar)
          (means.2 + g (2 * (k + j) + 1) * noiseVar) = false := by
  induction fuel generalizing k with
  | zero => simp [ARCoeffecientGeneration]
  | succ fuel ih =>
    simp only [ARCoeffecientGeneration]
    by_cases hc : stableCheck (means.1 + g (2 * k) * noiseVar)
        (means.2 + g (2 * k + 1) * noiseVar) = true
    · rw [if_pos hc]
      apply iff_of_false (by simp)
      intro hall
      have h0 := hall 0 (Nat.succ_pos fuel)
      rw [Nat.add_zero] at h0
      rw [hc] at h0
      cases h0
    · rw [if_neg hc, ih (k + 1)]
      have hcf : stableCheck (means.1 + g (2 * k) * noiseVar)
          (means.2 + g (2 * k + 1) * noiseVar) = false :=
        Bool.eq_false_iff.mpr hc
      constructor
      · intro hall j hj
        cases j with
        | zero =>
          rw [Nat.add_zero]
          exact hcf
        | succ j =>
          have hx := hall j (by omega)
          rw [show k + 1 + j = k + (j + 1) from by omega] at hx
          exact hx
      · intro hall j hj
        have hx := hall (j + 1) (by omega)
        rw [show k + (j + 1) = k + 1 + j from by omega] at hx
        exact hx

/-- What the loop does guarantee: every returned coefficient pair passes
the source's elementwise box test, i.e. all eigenvalues of the returned
companion matrix have `|Re| <= 1` and `|Im| <= 1` — which is weaker than
the magnitude bound the loop's comment intends (see C5). -/
theorem ARCoeffGen_returns_eigBox (means : ℚ × ℚ) (noiseVar : ℚ) (g : ℕ → ℚ)
    (k fuel : ℕ) (a : ℚ × ℚ)
    (h : ARCoeffecientGeneration means noiseVar g k fuel = some a) :
    eigBox a.1 a.2 := by
  induction fuel generalizing k with
  | zero => simp [ARCoeffecientGeneration] at h
  | succ fuel ih =>
    simp only [ARCoeffecientGeneration] at h
    by_cases hc : stableCheck (means.1 + g (2 * k) * noiseVar)
        (means.2 + g (2 * k + 1) * noiseVar) = true
    · rw [if_pos hc] at h
      obtain rfl := Option.some.inj h
      exact stableCheck_eigBox _ _ hc
    · rw [if_neg hc] at h
      exact ih (k + 1) h

/-- C4 (amended): the rejection loop of `ARCoeffecientGeneration` has no
retry ceiling and no error path at all: after any number `fuel` of
iterations it is still running (has not returned) exactly when every one
of the first `fuel` coefficient draws failed the elementwise acceptance
test — so its only exit is an accepted draw, and a draw stream that
never produces an accepted pair keeps it looping forever (see the
counterexample). -/
theorem C4_theorem (means : ℚ × ℚ) (noiseVar : ℚ) (g : ℕ → ℚ) (k fuel : ℕ) :
    ARCoeffecientGeneration means noiseVar g k fuel = none ↔
      ∀ j, j < fuel →
        stableCheck (means.1 + g (2 * (k + j)) * noiseVar)
          (means.2 + g (2 * (k + j) + 1) * noiseVar) = false :=
  ARCoeffGen_none_iff means noiseVar g k fuel

/-- C4 counterexample: no fixed iteration bound makes the loop exit for
every input — with means `(2, 1)` and coefficient noise variance `0`,
every redraw yields the same pair `(2, 1)`, whose companion matrix has
the real eigenvalues `1 ± sqrt 2` (so the elementwise test agrees with
the magnitude test here: `|Re| = 1 + sqrt 2 > 1` is rejected), and the
loop is still running after any number of iterations, raising nothing. -/
theorem C4_counterexample : ¬ hasRetryCeiling := by
  rintro ⟨N, hN⟩
  have hsc : stableCheck 2 1 = false := by
    unfold stableCheck
    rw [if_pos (by norm_num)]
    rw [decide_eq_false_iff_not]
    rintro ⟨-, hq, -⟩
    norm_num at hq
  have hnone : ARCoeffecientGeneration (2, 1) 0 (fun _ => 0) 0 N = none := by
    rw [ARCoeffGen_none_iff]
    intro j hj
    simpa using hsc
  have h2 := hN (2, 1) 0 (fun _ => 0)
  rw [hnone] at h2
  simp at h2

/-- C5: evaluation of the code at the failing input.  With means
`(9/5, -3/2)` and noise variance `0` (the same pair is reachable from
the hardcoded means `(0.5, 0.4)` with variance `1` and draws
`(1.3, -1.9)`), the rejection loop accepts on its first draw and
returns `(9/5, -3/2)` — yet the returned companion matrix violates the
claimed property: its eigenvalues `9/10 ± i*sqrt(69)/10` have magnitude
`sqrt(3/2) > 1`.  The source's test (`torch.abs` on `torch.eig`'s
(re, im) rows) only bounds the real and imaginary parts, each below 1
here, so the pair passes although `eigStable` fails. -/
theorem C5_theorem :
    ARCoeffecientGeneration (9 / 5, -(3 / 2)) 0 (fun _ => 0) 0 1
      = some (9 / 5, -(3 / 2))
  ∧ ¬ eigStable (9 / 5) (-(3 / 2)) := by
  constructor
  · have hsc : stableCheck (9 / 5 : ℚ) (-(3 / 2) : ℚ) = true := by
      unfold stableCheck
      rw [if_neg (by norm_num), decide_eq_true_eq]
      constructor
      · rw [abs_le]
        constructor <;> norm_num
      · norm_num
    simp only [ARCoeffecientGeneration]
    norm_num [hsc]
  · intro hstable
    have hmc := eigStable_magCheck _ _ hstable
    rw [magCheck_true_iff] at hmc
    obtain ⟨h2, -⟩ := hmc
    rw [abs_le] at h2
    have hcontra := h2.1
    norm_num at hcontra
